import Mathlib

/-!
# lambdanotes backend: the synchronization engine of `backend/main.go`

A shallow embedding of the Git synchronization code of `backend/main.go`
(`handleSync`, `getAuthRepoURL`, `runGitCommand`, `handleConfig`) together with
the functions of Go's `strings` package that this code calls.

Conventions of the embedding.

* A Go `string` is a sequence of bytes.  It is embedded as `Str = List Char`,
  every `Char` standing for ONE byte (code points `0 .. 255`); ASCII text is
  written as it is, any other byte with a `\x` escape.  `len`, slicing and
  `==` of Go are `List.length`, `List.take` / `List.drop` and `=`.
* The `git` executable, the file system and the configuration file form the
  environment `Env σ`: a deterministic collaborator over an arbitrary world
  state `σ`.  Every handler threads the world through its calls and records
  every `git` invocation, with its result, in a trace.
* The global mutex and the log output are left out: one request is modelled in
  isolation and logging has no influence on the control flow.
-/

namespace LambdaNotes

/-- A Go string: its bytes, one `Char` per byte. -/
abbrev Str := List Char

/-! ## The functions of Go's `strings` package used by the code -/

/-- Go `strings.Index(s, substr)`: the first position at which `substr` occurs
in `s`, `none` for Go's `-1`. -/
def Index (s substr : Str) : Option Nat :=
  if substr.isPrefixOf s then some 0
  else match s with
    | [] => none
    | _ :: t => (Index t substr).map (· + 1)

/-- Go `strings.Contains(s, substr)`, which is `Index(s, substr) >= 0`. -/
def Contains (s substr : Str) : Bool := (Index s substr).isSome

/-- The loop of Go's `genSplit`: cut at the first separator, go on with what
follows it, and close with the remainder.  The first argument bounds the
number of cuts. -/
def splitLoop (sep : Str) : Nat → Str → List Str
  | 0, s => [s]
  | n + 1, s =>
    match Index s sep with
    | none => [s]
    | some m => s.take m :: splitLoop sep n (s.drop (m + sep.length))

/-- Go `strings.Split(s, sep)` for a separator of at least one byte (the code
passes `"\n"` and `"://"`).  Go bounds the loop by the number of separators in
`s`; `s.length` is an upper bound of that number, see `splitLoop_fuel`. -/
def Split (s sep : Str) : List Str := splitLoop sep s.length s

/-- Go `strings.Join(elems, sep)`. -/
def Join : List Str → Str → Str
  | [], _ => []
  | [a], _ => a
  | a :: b :: rest, sep => a ++ sep ++ Join (b :: rest) sep

/-- The UTF-8 encodings of the runes for which Go's `unicode.IsSpace` holds:
the six ASCII ones, U+0085, U+00A0, U+1680, U+2000 to U+200A, U+2028, U+2029,
U+202F, U+205F and U+3000. -/
def spaceRunes : List Str :=
  [ ['\t'], ['\n'], ['\x0b'], ['\x0c'], ['\r'], [' '],
    ['\xc2', '\x85'], ['\xc2', '\xa0'],
    ['\xe1', '\x9a', '\x80'],
    ['\xe2', '\x80', '\x80'], ['\xe2', '\x80', '\x81'], ['\xe2', '\x80', '\x82'],
    ['\xe2', '\x80', '\x83'], ['\xe2', '\x80', '\x84'], ['\xe2', '\x80', '\x85'],
    ['\xe2', '\x80', '\x86'], ['\xe2', '\x80', '\x87'], ['\xe2', '\x80', '\x88'],
    ['\xe2', '\x80', '\x89'], ['\xe2', '\x80', '\x8a'],
    ['\xe2', '\x80', '\xa8'], ['\xe2', '\x80', '\xa9'], ['\xe2', '\x80', '\xaf'],
    ['\xe2', '\x81', '\x9f'],
    ['\xe3', '\x80', '\x80'] ]

/-- Width in bytes of the white-space rune that `s` starts with, `0` when `s`
does not start with one. -/
def leadingSpace (s : Str) : Nat :=
  match spaceRunes.find? (fun e => e.isPrefixOf s) with
  | some e => e.length
  | none => 0

/-- Width in bytes of the white-space rune that `s` ends with, `0` when `s`
does not end with one. -/
def trailingSpace (s : Str) : Nat :=
  match spaceRunes.find? (fun e => e.isSuffixOf s) with
  | some e => e.length
  | none => 0

/-- Removal of the leading white-space runes, one per iteration. -/
def trimLeftLoop : Nat → Str → Str
  | 0, s => s
  | n + 1, s =>
    match leadingSpace s with
    | 0 => s
    | k + 1 => trimLeftLoop n (s.drop (k + 1))

/-- Removal of the trailing white-space runes, one per iteration. -/
def trimRightLoop : Nat → Str → Str
  | 0, s => s
  | n + 1, s =>
    match trailingSpace s with
    | 0 => s
    | k + 1 => trimRightLoop n (s.take (s.length - (k + 1)))

/-- Go `strings.TrimSpace(s)`: `s` without its leading and trailing white
space, as defined by Unicode.  Every iteration removes at least one byte, so
`s.length` iterations are enough on each side. -/
def TrimSpace (s : Str) : Str :=
  let t := trimLeftLoop s.length s
  trimRightLoop t.length t

/-! ## Data model of `main.go` -/

/-- The `AppConfig` struct (the global `config`). -/
structure AppConfig where
  RepoURL : Str
  Token : Str
  Username : Str
  Email : Str
  deriving DecidableEq, Repr

/-- The `SyncRequest` struct: the decoded body of `POST /api/sync`. -/
structure SyncRequest where
  Message : Str
  deriving DecidableEq, Repr

/-- The three slices `added, modified, deleted` of `handleSync`. -/
structure ChangeSet where
  added : List Str
  modified : List Str
  deleted : List Str
  deriving DecidableEq, Repr

/-- What a handler writes to its `http.ResponseWriter`. -/
inductive Body where
  | text (msg : Str)
  | json (fields : List (Str × Str))
  | none
  deriving DecidableEq, Repr

/-- The HTTP response of a handler: status code and body.  `http.Error(w, msg,
code)` is `⟨code, .text msg⟩`, an encoded JSON object is `.json` with its
fields, a handler that writes nothing answers `⟨200, .none⟩`. -/
structure Response where
  code : Nat
  body : Body
  deriving DecidableEq, Repr

/-- What one run of the `git` executable gives back: `err` is the text of the
Go error (`none` for `nil`), `stdout` what `cmd.Output()` returns and
`combined` what `cmd.CombinedOutput()` returns. -/
structure CmdResult where
  err : Option Str
  stdout : Str
  combined : Str
  deriving DecidableEq, Repr

/-- The collaborators of the handlers over a world state `σ`: running
`git args...` in the notes directory, the test
`os.IsNotExist(os.Stat(notesDir/.git))`, and `saveConfig`. -/
structure Env (σ : Type) where
  git : σ → List Str → CmdResult × σ
  gitDirMissing : σ → Bool
  saveConfig : σ → AppConfig → σ

/-- The state threaded through a handler: the world and the `git` invocations
made so far, oldest first, each with its result. -/
structure Run (σ : Type) where
  world : σ
  trace : List (List Str × CmdResult)

/-! ## The code of `main.go` -/

/-- The loop body of `handleSync` (lines 247-263): one line of the status
listing. -/
def classifyLine (c : ChangeSet) (line : Str) : ChangeSet :=
  let line := TrimSpace line
  if line.length < 3 then c
  else
    let code := line.take 2
    let file := TrimSpace (line.drop 2)
    if Contains code "??".toList || Contains code "A".toList then
      { c with added := c.added ++ [file] }
    else if Contains code "M".toList then
      { c with modified := c.modified ++ [file] }
    else if Contains code "D".toList then
      { c with deleted := c.deleted ++ [file] }
    else c

/-- Lines 243-263 of `handleSync`: the classification of the output of
`git status --porcelain`. -/
def classify (changes : Str) : ChangeSet :=
  (Split changes "\n".toList).foldl classifyLine ⟨[], [], []⟩

/-- Lines 265-275 of `handleSync`: the slice `msgParts`. -/
def msgParts (c : ChangeSet) : List Str :=
  let parts : List Str := []
  let parts := if c.added.length > 0 then
    parts ++ ["Added: ".toList ++ Join c.added ", ".toList] else parts
  let parts := if c.modified.length > 0 then
    parts ++ ["Updated: ".toList ++ Join c.modified ", ".toList] else parts
  let parts := if c.deleted.length > 0 then
    parts ++ ["Deleted: ".toList ++ Join c.deleted ", ".toList] else parts
  parts

/-- Lines 277-282 of `handleSync`: the commit message. -/
def synthesize (c : ChangeSet) (userMessage : Str) : Str :=
  let commitMsg := userMessage
  if (msgParts c).length > 0 then Join (msgParts c) "; ".toList
  else if commitMsg = [] then "Auto sync: No changes detected".toList
  else commitMsg

/-- The function `getAuthRepoURL`, with the global `config` as argument. -/
def getAuthRepoURL (config : AppConfig) : Str :=
  if config.Token = [] ∨ config.RepoURL = [] then []
  else
    let parts := Split config.RepoURL "://".toList
    if parts.length ≠ 2 then config.RepoURL
    else parts.getD 0 [] ++ "://oauth2:".toList ++ config.Token ++ "@".toList ++ parts.getD 1 []

/-- The function `runGitCommand`: runs `git args...`, records the invocation,
and returns the error `fmt.Errorf("%s: %s", err, output)`, `none` for `nil`. -/
def runGitCommand {σ : Type} (env : Env σ) (r : Run σ) (args : List Str) :
    Option Str × Run σ :=
  let res := env.git r.world args
  let r' : Run σ := ⟨res.2, r.trace ++ [(args, res.1)]⟩
  match res.1.err with
  | some e => (some (e ++ ": ".toList ++ res.1.combined), r')
  | none => (none, r')

/-- Lines 239-241 of `handleSync`: `git status --porcelain` through
`cmd.Output()`, its error dropped. -/
def gitStatus {σ : Type} (env : Env σ) (r : Run σ) : Str × Run σ :=
  let args := ["status".toList, "--porcelain".toList]
  let res := env.git r.world args
  (res.1.stdout, ⟨res.2, r.trace ++ [(args, res.1)]⟩)

/-- The text of the 400 answer of `handleSync`. -/
def configMissingText : Str :=
  ("Git yap\xc4\xb1land\xc4\xb1rmas\xc4\xb1 eksik. L\xc3\xbctfen ayarlardan " ++
    "GitHub ba\xc4\x9flant\xc4\xb1s\xc4\xb1n\xc4\xb1 yap\xc4\xb1n.").toList

/-- The prefix of the 500 answer of `handleSync`. -/
def syncErrorText : Str := "Senkronizasyon hatas\xc4\xb1: ".toList

/-- The function `handleSync`.  `method` is `r.Method`, `config` the global
configuration, `req` the request body as decoded by line 233 and `w` the
world before the request. -/
def handleSync {σ : Type} (env : Env σ) (method : Str) (config : AppConfig)
    (req : SyncRequest) (w : σ) : Response × Run σ :=
  let r0 : Run σ := ⟨w, []⟩
  if method ≠ "POST".toList then (⟨405, .text "Method not allowed".toList⟩, r0)
  else if config.RepoURL = [] ∨ config.Token = [] then (⟨400, .text configMissingText⟩, r0)
  else
    let st := gitStatus env r0
    let commitMsg := synthesize (classify st.1) req.Message
    let a := runGitCommand env st.2 ["add".toList, ".".toList]
    let c := runGitCommand env a.2 ["commit".toList, "-m".toList, commitMsg]
    let p := runGitCommand env c.2
      ["pull".toList, "--rebase".toList, "origin".toList, "main".toList]
    let q := runGitCommand env p.2 ["push".toList, "origin".toList, "main".toList]
    match q.1 with
    | some err => (⟨500, .text (syncErrorText ++ err)⟩, q.2)
    | none => (⟨200, .json [("status".toList, "synced".toList)]⟩, q.2)

/-- The function `handleConfig`.  `body` is the outcome of decoding the
request body (the error text when it does not decode).  The result carries the
response, the value of the global `config` after the request and the run. -/
def handleConfig {σ : Type} (env : Env σ) (method : Str) (config : AppConfig)
    (body : Except Str AppConfig) (w : σ) : Response × AppConfig × Run σ :=
  let r0 : Run σ := ⟨w, []⟩
  if method = "GET".toList then
    (⟨200, .json [("repoUrl".toList, config.RepoURL), ("token".toList, config.Token),
        ("username".toList, config.Username), ("email".toList, config.Email)]⟩, config, r0)
  else if method = "POST".toList then
    match body with
    | .error e => (⟨400, .text e⟩, config, r0)
    | .ok newConfig =>
      let config := newConfig
      let r1 : Run σ := ⟨env.saveConfig w config, []⟩
      let r2 :=
        if env.gitDirMissing r1.world then
          let i := runGitCommand env r1 ["init".toList]
          (runGitCommand env i.2 ["branch".toList, "-M".toList, "main".toList]).2
        else r1
      let n := runGitCommand env r2 ["config".toList, "user.name".toList, config.Username]
      let m := runGitCommand env n.2 ["config".toList, "user.email".toList, config.Email]
      let rm := runGitCommand env m.2 ["remote".toList, "remove".toList, "origin".toList]
      let authURL := getAuthRepoURL config
      let ad := runGitCommand env rm.2
        ["remote".toList, "add".toList, "origin".toList, authURL]
      match ad.1 with
      | some err => (⟨500, .text ("Remote eklenemedi: ".toList ++ err)⟩, config, ad.2)
      | none =>
        let pl := runGitCommand env ad.2
          ["pull".toList, "origin".toList, "main".toList, "--allow-unrelated-histories".toList]
        (⟨200, .json [("status".toList, "configured".toList)]⟩, config, pl.2)
  else (⟨200, .none⟩, config, r0)

/-! ## Notions used to state the properties -/

/-- Number of positions of `s` at which `sep` occurs. -/
def occurrences (s sep : Str) : Nat :=
  match s with
  | [] => if sep.isPrefixOf [] then 1 else 0
  | c :: t => (if sep.isPrefixOf (c :: t) then 1 else 0) + occurrences t sep

/-- The code and the path that the loop body of `handleSync` reads off a
line: `none` when the trimmed line has fewer than 3 bytes. -/
def parseLine (line : Str) : Option (Str × Str) :=
  let t := TrimSpace line
  if t.length < 3 then none else some (t.take 2, TrimSpace (t.drop 2))

/-- The paths of a status listing: one per line whose trimmed form has at
least 3 bytes. -/
def inputPaths (changes : Str) : List Str :=
  (Split changes "\n".toList).filterMap (fun l => (parseLine l).map Prod.snd)

/-- The claim "the union of the three buckets equals the set of distinct
non-blank paths in the input". -/
def bucketsCoverPaths (changes : Str) : Prop :=
  ∀ p, p ∈ inputPaths changes ↔
    (p ∈ (classify changes).added ∨ p ∈ (classify changes).modified ∨
      p ∈ (classify changes).deleted)

/-- The claim "a file is never placed in more than one bucket". -/
def bucketsDisjoint (changes : Str) : Prop :=
  List.Disjoint (classify changes).added (classify changes).modified ∧
  List.Disjoint (classify changes).added (classify changes).deleted ∧
  List.Disjoint (classify changes).modified (classify changes).deleted

/-- The path of a line that goes to `added`. -/
def addedPath (line : Str) : Option Str :=
  match parseLine line with
  | some (code, file) => if code = "??".toList ∨ 'A' ∈ code then some file else none
  | none => none

/-- The path of a line that goes to `modified`. -/
def modifiedPath (line : Str) : Option Str :=
  match parseLine line with
  | some (code, file) =>
    if ¬ (code = "??".toList ∨ 'A' ∈ code) ∧ 'M' ∈ code then some file else none
  | none => none

/-- The path of a line that goes to `deleted`. -/
def deletedPath (line : Str) : Option Str :=
  match parseLine line with
  | some (code, file) =>
    if ¬ (code = "??".toList ∨ 'A' ∈ code) ∧ 'M' ∉ code ∧ 'D' ∈ code then some file else none
  | none => none

/-- The path of a line with a recognised code. -/
def recognisedPath (line : Str) : Option Str :=
  match parseLine line with
  | some (code, file) =>
    if code = "??".toList ∨ 'A' ∈ code ∨ 'M' ∈ code ∨ 'D' ∈ code then some file else none
  | none => none

/-- The paths of the lines whose code is `??` or contains `A`, `M` or `D`. -/
def recognisedPaths (changes : Str) : List Str :=
  (Split changes "\n".toList).filterMap recognisedPath

/-- The commit message in the words of the specification: the parts
`Added: `, `Updated: ` and `Deleted: ` of the non-empty buckets, each followed
by the bucket joined with `, `, joined with `; `; with three empty buckets the
user message, or the placeholder when that is empty. -/
def describedMessage (c : ChangeSet) (userMessage : Str) : Str :=
  if c.added = [] ∧ c.modified = [] ∧ c.deleted = [] then
    if userMessage = [] then "Auto sync: No changes detected".toList else userMessage
  else
    "; ".toList.intercalate
      (([("Added: ".toList, c.added), ("Updated: ".toList, c.modified),
          ("Deleted: ".toList, c.deleted)].filter (fun p => p.2 ≠ [])).map
        (fun p => p.1 ++ ", ".toList.intercalate p.2))

/-- A scripted environment for concrete runs: `git args...` fails with
`exit status 1` and the output `fatal` when `fails args` holds and succeeds
otherwise, `git status --porcelain` printing `status`; there is no `.git`
directory yet. -/
def scripted (fails : List Str → Bool) (status : Str) : Env Unit where
  git := fun _ args =>
    (if fails args then ⟨some "exit status 1".toList, [], "fatal".toList⟩
      else if args = ["status".toList, "--porcelain".toList] then ⟨none, status, status⟩
      else ⟨none, [], []⟩, ())
  gitDirMissing := fun _ => true
  saveConfig := fun _ _ => ()

/-- A complete configuration for concrete runs. -/
def sampleConfig : AppConfig :=
  ⟨"https://github.com/u/r.git".toList, "T".toList, "u".toList, "u@example.org".toList⟩

/-! ## Properties of the `strings` functions -/

theorem occurrences_cons (c : Char) (t sep : Str) :
    occurrences (c :: t) sep = (if sep.isPrefixOf (c :: t) then 1 else 0) + occurrences t sep := rfl

theorem occurrences_le_append (x y sep : Str) :
    occurrences y sep ≤ occurrences (x ++ y) sep := by
  induction x with
  | nil => simp
  | cons c x ih =>
    rw [List.cons_append, occurrences_cons]
    omega

theorem occurrences_sep_append (c : Char) (sep rest : Str) :
    occurrences ((c :: sep) ++ rest) (c :: sep) = 1 + occurrences (sep ++ rest) (c :: sep) := by
  rw [List.cons_append, occurrences_cons]
  have h : (c :: sep).isPrefixOf (c :: (sep ++ rest)) = true := by
    rw [List.isPrefixOf_iff_prefix]
    exact List.prefix_append (c :: sep) rest
  simp [h]

theorem Index_cons (c : Char) (t sep : Str) :
    Index (c :: t) sep =
      if sep.isPrefixOf (c :: t) then some 0 else (Index t sep).map (· + 1) := by
  rw [Index]

theorem Index_none_of_occurrences (s sep : Str) (h : occurrences s sep = 0) :
    Index s sep = none := by
  induction s with
  | nil =>
    unfold occurrences at h
    unfold Index
    split at h
    · omega
    · simp_all
  | cons c t ih =>
    rw [occurrences_cons] at h
    rw [Index_cons]
    split at h
    · omega
    · rename_i hp
      simp only [hp]
      simp [ih (by omega)]

theorem Index_some_of_occurrences (s sep : Str) (h : 0 < occurrences s sep) :
    ∃ m, Index s sep = some m := by
  induction s with
  | nil =>
    unfold occurrences at h
    unfold Index
    split at h
    · rename_i hp; exact ⟨0, by simp [hp]⟩
    · omega
  | cons c t ih =>
    rw [occurrences_cons] at h
    rw [Index_cons]
    by_cases hp : sep.isPrefixOf (c :: t) = true
    · exact ⟨0, by simp [hp]⟩
    · simp only [hp] at h ⊢
      obtain ⟨m, hm⟩ := ih (by simpa using h)
      exact ⟨m + 1, by simp [hm]⟩

/-- With exactly one occurrence of the separator, at the end of `a`, `Index`
finds it there and nothing occurs after it. -/
theorem Index_of_single (a b : Str) (c : Char) (sep : Str)
    (h : occurrences (a ++ (c :: sep) ++ b) (c :: sep) = 1) :
    Index (a ++ (c :: sep) ++ b) (c :: sep) = some a.length ∧ occurrences b (c :: sep) = 0 := by
  induction a with
  | nil =>
    simp only [List.nil_append] at h ⊢
    rw [occurrences_sep_append] at h
    have h1 := occurrences_le_append sep b (c :: sep)
    refine ⟨?_, by omega⟩
    rw [List.cons_append, Index_cons]
    have hp : (c :: sep).isPrefixOf (c :: (sep ++ b)) = true := by
      rw [List.isPrefixOf_iff_prefix]
      exact List.prefix_append (c :: sep) b
    simp [hp]
  | cons x a ih =>
    simp only [List.cons_append, List.append_assoc] at h ih ⊢
    rw [occurrences_cons] at h
    have h1 : 1 ≤ occurrences (a ++ (c :: (sep ++ b))) (c :: sep) := by
      have := occurrences_le_append a (c :: (sep ++ b)) (c :: sep)
      have h2 := occurrences_sep_append c sep b
      simp only [List.cons_append] at h2
      omega
    by_cases hp : (c :: sep).isPrefixOf (x :: (a ++ c :: (sep ++ b))) = true
    · simp only [hp] at h
      simp at h
      omega
    · simp only [hp] at h
      have h3 := ih (by simpa using h)
      rw [Index_cons]
      simp only [hp]
      simp [h3.1, h3.2]

theorem occurrences_le_length (s : Str) (c : Char) (sep : Str) :
    occurrences s (c :: sep) ≤ s.length := by
  induction s with
  | nil => simp [occurrences, List.isPrefixOf]
  | cons x t ih =>
    rw [occurrences_cons, List.length_cons]
    split <;> omega

/-- The separator `://` does not overlap itself: past its first occurrence,
found by `Index`, the rest of the string holds all the other occurrences. -/
theorem occurrences_after_first (s : Str) (m : Nat)
    (hi : Index s [':', '/', '/'] = some m) (h : 2 ≤ occurrences s [':', '/', '/']) :
    1 ≤ occurrences (s.drop (m + 3)) [':', '/', '/'] := by
  induction s generalizing m with
  | nil => simp [occurrences, List.isPrefixOf] at h
  | cons x t ih =>
    rw [Index_cons] at hi
    rw [occurrences_cons] at h
    by_cases hp : [':', '/', '/'].isPrefixOf (x :: t) = true
    · simp only [hp, if_true, Option.some.injEq] at hi
      subst hi
      rw [List.isPrefixOf_iff_prefix] at hp
      obtain ⟨r, hr⟩ := hp
      simp only [List.cons_append, List.nil_append, List.cons.injEq] at hr
      obtain ⟨rfl, rfl⟩ := hr
      simp only [occurrences_cons] at h
      simp [List.isPrefixOf] at h
      simp only [Nat.zero_add, List.drop_succ_cons, List.drop_zero]
      omega
    · simp only [hp] at hi h
      cases hti : Index t [':', '/', '/'] with
      | none => simp [hti] at hi
      | some k =>
        simp [hti] at hi
        subst hi
        have := ih k hti (by simpa using h)
        simpa using this

theorem splitLoop_succ (sep : Str) (n : Nat) (s : Str) :
    splitLoop sep (n + 1) s =
      match Index s sep with
      | none => [s]
      | some m => s.take m :: splitLoop sep n (s.drop (m + sep.length)) := rfl

theorem splitLoop_of_none (sep : Str) (n : Nat) (s : Str) (h : Index s sep = none) :
    splitLoop sep n s = [s] := by
  cases n with
  | zero => rfl
  | succ n => rw [splitLoop_succ, h]

/-- Position found by `Index`: the separator stands there. -/
theorem Index_spec (s sep : Str) (m : Nat) (h : Index s sep = some m) :
    m + sep.length ≤ s.length ∧ (s.drop m).take sep.length = sep := by
  induction s generalizing m with
  | nil =>
    unfold Index at h
    split at h
    · rename_i hp
      simp at h
      subst h
      cases sep with
      | nil => simp
      | cons c sep => simp [List.isPrefixOf] at hp
    · simp at h
  | cons x t ih =>
    rw [Index_cons] at h
    by_cases hp : sep.isPrefixOf (x :: t) = true
    · simp only [hp, if_true, Option.some.injEq] at h
      subst h
      rw [List.isPrefixOf_iff_prefix] at hp
      obtain ⟨r, hr⟩ := hp
      rw [← hr]
      simp
    · simp only [hp] at h
      cases hti : Index t sep with
      | none => simp [hti] at h
      | some k =>
        simp [hti] at h
        subst h
        have := ih k hti
        simp only [List.length_cons, List.drop_succ_cons]
        exact ⟨by omega, this.2⟩

/-- More iterations than the length of the string change nothing: the bound
`s.length` of `Split` never cuts the loop short. -/
theorem splitLoop_fuel (c : Char) (sep : Str) (n : Nat) (s : Str) (h : s.length ≤ n) :
    splitLoop (c :: sep) n s = splitLoop (c :: sep) s.length s := by
  induction n using Nat.strong_induction_on generalizing s with
  | _ n ih =>
    cases hi : Index s (c :: sep) with
    | none => rw [splitLoop_of_none _ _ _ hi, splitLoop_of_none _ _ _ hi]
    | some m =>
      have hs := (Index_spec s (c :: sep) m hi).1
      simp only [List.length_cons] at hs
      obtain ⟨n', rfl⟩ : ∃ n', n = n' + 1 := ⟨n - 1, by omega⟩
      obtain ⟨l', hl⟩ : ∃ l', s.length = l' + 1 := ⟨s.length - 1, by omega⟩
      rw [hl, splitLoop_succ, splitLoop_succ, hi]
      simp only [List.length_cons]
      have hd : (s.drop (m + (sep.length + 1))).length ≤ l' := by
        rw [List.length_drop]; omega
      rw [ih n' (by omega) _ (by omega), ih l' (by omega) _ hd]

theorem leadingSpace_le (s : Str) : leadingSpace s ≤ s.length := by
  unfold leadingSpace
  split
  · rename_i e he
    have h := List.find?_some he
    simp only [List.isPrefixOf_iff_prefix] at h
    exact h.length_le
  · omega

theorem trailingSpace_le (s : Str) : trailingSpace s ≤ s.length := by
  unfold trailingSpace
  split
  · rename_i e he
    have h := List.find?_some he
    simp only [List.isSuffixOf_iff_suffix] at h
    exact h.length_le
  · omega

theorem trimLeftLoop_succ (n : Nat) (s : Str) :
    trimLeftLoop (n + 1) s =
      match leadingSpace s with
      | 0 => s
      | k + 1 => trimLeftLoop n (s.drop (k + 1)) := rfl

theorem trimRightLoop_succ (n : Nat) (s : Str) :
    trimRightLoop (n + 1) s =
      match trailingSpace s with
      | 0 => s
      | k + 1 => trimRightLoop n (s.take (s.length - (k + 1))) := rfl

/-- More iterations than the length of the string change nothing: the bound
`s.length` of `TrimSpace` never cuts the left loop short. -/
theorem trimLeftLoop_fuel (n : Nat) (s : Str) (h : s.length ≤ n) :
    trimLeftLoop n s = trimLeftLoop s.length s := by
  induction n using Nat.strong_induction_on generalizing s with
  | _ n ih =>
    have hle := leadingSpace_le s
    cases hk : leadingSpace s with
    | zero =>
      have h0 : ∀ m, trimLeftLoop m s = s := by
        intro m
        cases m with
        | zero => rfl
        | succ m => rw [trimLeftLoop_succ, hk]
      rw [h0, h0]
    | succ k =>
      obtain ⟨n', rfl⟩ : ∃ n', n = n' + 1 := ⟨n - 1, by omega⟩
      obtain ⟨l', hl⟩ : ∃ l', s.length = l' + 1 := ⟨s.length - 1, by omega⟩
      have hd : (s.drop (k + 1)).length ≤ l' := by
        rw [List.length_drop]; omega
      have e1 : trimLeftLoop (n' + 1) s = trimLeftLoop n' (s.drop (k + 1)) := by
        rw [trimLeftLoop_succ, hk]
      have e2 : trimLeftLoop (l' + 1) s = trimLeftLoop l' (s.drop (k + 1)) := by
        rw [trimLeftLoop_succ, hk]
      rw [hl, e1, e2, ih n' (by omega) _ (by omega), ih l' (by omega) _ hd]

/-- The same for the right loop. -/
theorem trimRightLoop_fuel (n : Nat) (s : Str) (h : s.length ≤ n) :
    trimRightLoop n s = trimRightLoop s.length s := by
  induction n using Nat.strong_induction_on generalizing s with
  | _ n ih =>
    have hle := trailingSpace_le s
    cases hk : trailingSpace s with
    | zero =>
      have h0 : ∀ m, trimRightLoop m s = s := by
        intro m
        cases m with
        | zero => rfl
        | succ m => rw [trimRightLoop_succ, hk]
      rw [h0, h0]
    | succ k =>
      obtain ⟨n', rfl⟩ : ∃ n', n = n' + 1 := ⟨n - 1, by omega⟩
      obtain ⟨l', hl⟩ : ∃ l', s.length = l' + 1 := ⟨s.length - 1, by omega⟩
      have hd : (s.take (s.length - (k + 1))).length ≤ l' := by
        rw [List.length_take]; omega
      have e1 : trimRightLoop (n' + 1) s =
          trimRightLoop n' (s.take (s.length - (k + 1))) := by
        rw [trimRightLoop_succ, hk]
      have e2 : trimRightLoop (l' + 1) s =
          trimRightLoop l' (s.take (s.length - (k + 1))) := by
        rw [trimRightLoop_succ, hk]
      rw [hl, e1, e2, ih n' (by omega) _ (by omega), ih l' (by omega) _ hd]

/-! ## `getAuthRepoURL` (C5, C6) -/

theorem Split_of_single (a b : Str) (c : Char) (sep : Str)
    (h : occurrences (a ++ (c :: sep) ++ b) (c :: sep) = 1) :
    Split (a ++ (c :: sep) ++ b) (c :: sep) = [a, b] := by
  obtain ⟨hi, hb⟩ := Index_of_single a b c sep h
  have hl : (a ++ (c :: sep) ++ b).length = (a.length + sep.length + b.length) + 1 := by
    simp only [List.length_append, List.length_cons]; omega
  unfold Split
  rw [hl, splitLoop_succ, hi]
  simp only [List.append_assoc, List.take_left', List.drop_append]
  rw [List.drop_left', splitLoop_of_none _ _ _ (Index_none_of_occurrences b _ hb)]
  rfl

theorem Split_of_none (s sep : Str) (h : occurrences s sep = 0) : Split s sep = [s] :=
  splitLoop_of_none _ _ _ (Index_none_of_occurrences s sep h)

theorem splitLoop_length_pos (sep : Str) (n : Nat) (s : Str) :
    1 ≤ (splitLoop sep n s).length := by
  cases n with
  | zero => simp [splitLoop]
  | succ n =>
    rw [splitLoop_succ]
    split <;> simp

theorem Split_length_of_many (s : Str) (h : 2 ≤ occurrences s [':', '/', '/']) :
    3 ≤ (Split s [':', '/', '/']).length := by
  have hlen := occurrences_le_length s ':' ['/', '/']
  obtain ⟨m, hm⟩ := Index_some_of_occurrences s _ (by omega : 0 < occurrences s [':', '/', '/'])
  have h2 := occurrences_after_first s m hm h
  obtain ⟨k, hk⟩ := Index_some_of_occurrences _ _ (by omega : 0 < occurrences (s.drop (m + 3)) [':', '/', '/'])
  obtain ⟨n, hn⟩ : ∃ n, s.length = n + 2 := ⟨s.length - 2, by omega⟩
  unfold Split
  rw [hn, splitLoop_succ, hm]
  simp only [List.length_cons, List.length_nil, splitLoop_succ, hk]
  have := splitLoop_length_pos [':', '/', '/'] n
    (List.drop (k + (0 + 1 + 1 + 1)) (List.drop (m + (0 + 1 + 1 + 1)) s))
  omega

/-- C5. With a non-empty token and a repository URL `scheme ++ "://" ++ rest`
in which the separator `://` occurs exactly once, `getAuthRepoURL` returns
`scheme ++ "://oauth2:" ++ token ++ "@" ++ rest`. -/
theorem getAuthRepoURL_of_single_separator (scheme rest token username email : Str)
    (ht : token ≠ [])
    (h : occurrences (scheme ++ "://".toList ++ rest) "://".toList = 1) :
    getAuthRepoURL ⟨scheme ++ "://".toList ++ rest, token, username, email⟩ =
      scheme ++ "://oauth2:".toList ++ token ++ "@".toList ++ rest := by
  have hs := Split_of_single scheme rest ':' ['/', '/'] h
  have hne : scheme ++ "://".toList ++ rest ≠ [] := by simp
  unfold getAuthRepoURL
  simp only [ht, hne, or_self, if_false]
  have e : "://".toList = [':', '/', '/'] := rfl
  rw [e, hs]
  simp

/-- C5, the example of the specification:
`authenticatedURL("https://github.com/u/r.git", "T")`. -/
theorem getAuthRepoURL_of_single_separator_witness :
    "T".toList ≠ [] ∧
    occurrences ("https".toList ++ "://".toList ++ "github.com/u/r.git".toList) "://".toList = 1 ∧
    getAuthRepoURL ⟨"https://github.com/u/r.git".toList, "T".toList, [], []⟩ =
      "https://oauth2:T@github.com/u/r.git".toList :=
  ⟨by decide, by decide,
    getAuthRepoURL_of_single_separator "https".toList "github.com/u/r.git".toList "T".toList [] []
      (by decide) (by decide)⟩

/-- C6, counterexample: with an empty token a URL without `://` is not
returned unchanged, the result is the empty string. -/
theorem getAuthRepoURL_empty_token_counterexample :
    occurrences "github.com/u/r.git".toList "://".toList ≠ 1 ∧
    getAuthRepoURL ⟨"github.com/u/r.git".toList, [], [], []⟩ = [] ∧
    getAuthRepoURL ⟨"github.com/u/r.git".toList, [], [], []⟩ ≠ "github.com/u/r.git".toList := by
  decide

/-- C6, amended. With an empty token `getAuthRepoURL` returns the empty
string; with a non-empty token, a repository URL in which `://` does not occur
exactly once (never, or more than once) is returned unchanged. -/
theorem getAuthRepoURL_unchanged (config : AppConfig) :
    (config.Token = [] → getAuthRepoURL config = []) ∧
    (config.Token ≠ [] → occurrences config.RepoURL "://".toList ≠ 1 →
      getAuthRepoURL config = config.RepoURL) := by
  refine ⟨fun h => by simp [getAuthRepoURL, h], fun ht h => ?_⟩
  unfold getAuthRepoURL
  by_cases hr : config.RepoURL = []
  · simp [hr]
  · simp only [ht, hr, or_self, if_false]
    have e : "://".toList = [':', '/', '/'] := rfl
    rw [e] at h ⊢
    have hl : (Split config.RepoURL [':', '/', '/']).length ≠ 2 := by
      rcases Nat.lt_or_ge (occurrences config.RepoURL [':', '/', '/']) 1 with h0 | h1
      · rw [Split_of_none _ _ (by omega)]; simp
      · have := Split_length_of_many config.RepoURL (by omega)
        omega
    simp [hl]

/-- C6, amended, at concrete inputs: no separator, two separators, and an
empty token. -/
theorem getAuthRepoURL_unchanged_witness :
    getAuthRepoURL ⟨"github.com/u/r.git".toList, "T".toList, [], []⟩ = "github.com/u/r.git".toList ∧
    getAuthRepoURL ⟨"a://b://c".toList, "T".toList, [], []⟩ = "a://b://c".toList ∧
    getAuthRepoURL ⟨"https://github.com/u/r.git".toList, [], [], []⟩ = [] :=
  ⟨(getAuthRepoURL_unchanged ⟨"github.com/u/r.git".toList, "T".toList, [], []⟩).2
      (by decide) (by decide),
    (getAuthRepoURL_unchanged ⟨"a://b://c".toList, "T".toList, [], []⟩).2 (by decide) (by decide),
    (getAuthRepoURL_unchanged ⟨"https://github.com/u/r.git".toList, [], [], []⟩).1 rfl⟩

/-! ## The classification of the status listing (C7, C3) -/

theorem Contains_singleton (s : Str) (x : Char) : Contains s [x] = true ↔ x ∈ s := by
  unfold Contains
  induction s with
  | nil => simp [Index, List.isPrefixOf]
  | cons c t ih =>
    rw [Index_cons]
    by_cases h : c = x
    · subst h; simp [List.isPrefixOf]
    · have h' : ¬ x = c := fun e => h e.symm
      simp [List.isPrefixOf, h, h'] at ih ⊢
      exact ih

theorem Index_nil (sep : Str) :
    Index [] sep = if sep.isPrefixOf [] then some 0 else none := by
  rw [Index]

theorem Contains_pair (a b x y : Char) :
    Contains [a, b] [x, y] = true ↔ [a, b] = [x, y] := by
  simp only [Contains, Index_cons, Index_nil, List.isPrefixOf]
  by_cases h1 : x = a <;> by_cases h2 : y = b
  · simp [h1, h2]
  · have : ¬ b = y := fun e => h2 e.symm
    simp [h1, h2, this]
  · have : ¬ a = x := fun e => h1 e.symm
    simp [h1, h2, this]
  · have : ¬ a = x := fun e => h1 e.symm
    simp [h1, h2, this]

/-- The loop body of `handleSync` in terms of the code and the path of the
line. -/
theorem classifyLine_eq (c : ChangeSet) (line : Str) :
    classifyLine c line =
      match parseLine line with
      | none => c
      | some (code, file) =>
        if code = "??".toList ∨ 'A' ∈ code then { c with added := c.added ++ [file] }
        else if 'M' ∈ code then { c with modified := c.modified ++ [file] }
        else if 'D' ∈ code then { c with deleted := c.deleted ++ [file] }
        else c := by
  unfold classifyLine parseLine
  by_cases h : (TrimSpace line).length < 3
  · simp [h]
  · simp only [h, if_false]
    obtain ⟨a, b, hab⟩ : ∃ a b, (TrimSpace line).take 2 = [a, b] := by
      match ht : TrimSpace line with
      | [] => simp [ht] at h
      | [_] => simp [ht] at h
      | a :: b :: r => exact ⟨a, b, rfl⟩
    have e1 : "??".toList = ['?', '?'] := rfl
    have e2 : "A".toList = ['A'] := rfl
    have e3 : "M".toList = ['M'] := rfl
    have e4 : "D".toList = ['D'] := rfl
    rw [hab, e1, e2, e3, e4]
    simp only [Bool.or_eq_true, Contains_pair, Contains_singleton]

/-- C7. The loop body of `handleSync`: a line whose trimmed form is shorter
than 3 bytes changes no bucket; otherwise the code, the first two bytes of the
trimmed line, decides by first match: `??` or containing `A` appends the path
to `added` only, else containing `M` to `modified` only, else containing `D`
to `deleted` only, and any other code changes no bucket. -/
theorem classifyLine_precedence (c : ChangeSet) (line : Str) :
    ((TrimSpace line).length < 3 → classifyLine c line = c) ∧
    (3 ≤ (TrimSpace line).length →
      ∀ code file, code = (TrimSpace line).take 2 → file = TrimSpace ((TrimSpace line).drop 2) →
        ((code = "??".toList ∨ 'A' ∈ code) →
          classifyLine c line = ⟨c.added ++ [file], c.modified, c.deleted⟩) ∧
        (¬ (code = "??".toList ∨ 'A' ∈ code) → 'M' ∈ code →
          classifyLine c line = ⟨c.added, c.modified ++ [file], c.deleted⟩) ∧
        (¬ (code = "??".toList ∨ 'A' ∈ code) → 'M' ∉ code → 'D' ∈ code →
          classifyLine c line = ⟨c.added, c.modified, c.deleted ++ [file]⟩) ∧
        (¬ (code = "??".toList ∨ 'A' ∈ code) → 'M' ∉ code → 'D' ∉ code →
          classifyLine c line = c)) := by
  rw [classifyLine_eq]
  unfold parseLine
  constructor
  · intro h
    simp [h]
  · intro h code file hc hf
    subst hc hf
    have h' : ¬ (TrimSpace line).length < 3 := by omega
    simp only [h', if_false]
    refine ⟨fun h1 => ?_, fun h1 h2 => ?_, fun h1 h2 h3 => ?_, fun h1 h2 h3 => ?_⟩
    · simp only [h1, if_true]
    · simp only [h1, h2, if_true, if_false]
    · simp only [h1, h2, h3, if_true, if_false]
    · simp only [h1, h2, h3, if_false]

/-- C7 at concrete lines: the codes `AM` and `AD` give `added`, `MD` gives
`modified`, ` D` gives `deleted`, `R ` gives no bucket, and a line of two
bytes is skipped. -/
theorem classifyLine_precedence_witness :
    classifyLine ⟨[], [], []⟩ "AM a.md".toList = ⟨["a.md".toList], [], []⟩ ∧
    classifyLine ⟨[], [], []⟩ "AD a.md".toList = ⟨["a.md".toList], [], []⟩ ∧
    classifyLine ⟨[], [], []⟩ "MD a.md".toList = ⟨[], ["a.md".toList], []⟩ ∧
    classifyLine ⟨[], [], []⟩ " D a.md".toList = ⟨[], [], ["a.md".toList]⟩ ∧
    classifyLine ⟨[], [], []⟩ "R  a.md -> b.md".toList = ⟨[], [], []⟩ ∧
    classifyLine ⟨[], [], []⟩ " M ".toList = ⟨[], [], []⟩ :=
  ⟨((classifyLine_precedence ⟨[], [], []⟩ "AM a.md".toList).2 (by decide)
      "AM".toList "a.md".toList (by decide) (by decide)).1 (by decide),
    ((classifyLine_precedence ⟨[], [], []⟩ "AD a.md".toList).2 (by decide)
      "AD".toList "a.md".toList (by decide) (by decide)).1 (by decide),
    ((classifyLine_precedence ⟨[], [], []⟩ "MD a.md".toList).2 (by decide)
      "MD".toList "a.md".toList (by decide) (by decide)).2.1 (by decide) (by decide),
    ((classifyLine_precedence ⟨[], [], []⟩ " D a.md".toList).2 (by decide)
      "D ".toList "a.md".toList (by decide) (by decide)).2.2.1 (by decide) (by decide) (by decide),
    ((classifyLine_precedence ⟨[], [], []⟩ "R  a.md -> b.md".toList).2 (by decide)
      "R ".toList "a.md -> b.md".toList (by decide) (by decide)).2.2.2
        (by decide) (by decide) (by decide),
    (classifyLine_precedence ⟨[], [], []⟩ " M ".toList).1 (by decide)⟩

theorem classifyLine_buckets (c : ChangeSet) (line : Str) :
    classifyLine c line =
      ⟨c.added ++ (addedPath line).toList, c.modified ++ (modifiedPath line).toList,
        c.deleted ++ (deletedPath line).toList⟩ := by
  rw [classifyLine_eq]
  unfold addedPath modifiedPath deletedPath
  generalize "??".toList = q
  cases parseLine line with
  | none => simp
  | some cf =>
    obtain ⟨code, file⟩ := cf
    by_cases h1 : code = q ∨ 'A' ∈ code
    · simp [h1]
    · by_cases h2 : 'M' ∈ code
      · simp [h1, h2]
      · by_cases h3 : 'D' ∈ code
        · simp [h1, h2, h3]
        · simp [h1, h2, h3]

theorem foldl_classifyLine (ls : List Str) (c : ChangeSet) :
    ls.foldl classifyLine c =
      ⟨c.added ++ ls.filterMap addedPath, c.modified ++ ls.filterMap modifiedPath,
        c.deleted ++ ls.filterMap deletedPath⟩ := by
  induction ls generalizing c with
  | nil => simp
  | cons l ls ih =>
    rw [List.foldl_cons, ih, classifyLine_buckets]
    simp only [List.append_assoc, List.filterMap_cons]
    cases addedPath l <;> cases modifiedPath l <;> cases deletedPath l <;> simp

theorem classify_eq (changes : Str) :
    classify changes =
      ⟨(Split changes "\n".toList).filterMap addedPath,
        (Split changes "\n".toList).filterMap modifiedPath,
        (Split changes "\n".toList).filterMap deletedPath⟩ := by
  unfold classify
  rw [foldl_classifyLine]
  simp

theorem recognisedPath_iff (line p : Str) :
    recognisedPath line = some p ↔
      (addedPath line = some p ∨ modifiedPath line = some p ∨ deletedPath line = some p) := by
  unfold recognisedPath addedPath modifiedPath deletedPath
  generalize "??".toList = q
  cases parseLine line with
  | none => simp
  | some cf =>
    obtain ⟨code, file⟩ := cf
    by_cases h1 : code = q ∨ 'A' ∈ code
    · have : code = q ∨ 'A' ∈ code ∨ 'M' ∈ code ∨ 'D' ∈ code := by tauto
      simp [h1, this]
    · by_cases h2 : 'M' ∈ code
      · have : code = q ∨ 'A' ∈ code ∨ 'M' ∈ code ∨ 'D' ∈ code := by tauto
        simp [h1, h2, this]
      · by_cases h3 : 'D' ∈ code
        · have : code = q ∨ 'A' ∈ code ∨ 'M' ∈ code ∨ 'D' ∈ code := by tauto
          simp [h1, h2, h3, this]
        · have : ¬ (code = q ∨ 'A' ∈ code ∨ 'M' ∈ code ∨ 'D' ∈ code) := by tauto
          simp [h1, h2, h3, this]

/-- Two selections of a duplicate-free selection that never pick the same
element have no value in common. -/
theorem filterMap_disjoint {α β : Type} (f g r : α → Option β) (ls : List α)
    (hf : ∀ a b, f a = some b → r a = some b) (hg : ∀ a b, g a = some b → r a = some b)
    (hfg : ∀ a b, f a = some b → g a = none)
    (hn : (ls.filterMap r).Nodup) :
    List.Disjoint (ls.filterMap f) (ls.filterMap g) := by
  induction ls with
  | nil => simp
  | cons a t ih =>
    have hsub : ∀ (h : α → Option β), (∀ a b, h a = some b → r a = some b) →
        ∀ b, b ∈ t.filterMap h → b ∈ t.filterMap r := by
      intro h hh b hb
      rw [List.mem_filterMap] at hb ⊢
      obtain ⟨x, hx, hxb⟩ := hb
      exact ⟨x, hx, hh x b hxb⟩
    have hnt : (t.filterMap r).Nodup := by
      rw [List.filterMap_cons] at hn
      cases hr : r a with
      | none => simpa [hr] using hn
      | some b => rw [hr] at hn; exact (List.nodup_cons.1 hn).2
    have iht := ih hnt
    intro p hpf hpg
    rw [List.filterMap_cons] at hpf hpg
    cases hfa : f a with
    | none =>
      rw [hfa] at hpf
      cases hga : g a with
      | none => rw [hga] at hpg; exact iht hpf hpg
      | some b =>
        rw [hga] at hpg
        rcases List.mem_cons.1 hpg with rfl | hpg
        · rw [List.filterMap_cons, hg a p hga] at hn
          exact (List.nodup_cons.1 hn).1 (hsub f hf p hpf)
        · exact iht hpf hpg
    | some b =>
      rw [hfa] at hpf
      rw [hfg a b hfa] at hpg
      rcases List.mem_cons.1 hpf with rfl | hpf
      · rw [List.filterMap_cons, hf a p hfa] at hn
        exact (List.nodup_cons.1 hn).1 (hsub g hg p hpg)
      · exact iht hpf hpg

theorem addedPath_not_modified (a b : Str) (h : addedPath a = some b) :
    modifiedPath a = none := by
  unfold addedPath at h
  unfold modifiedPath
  generalize "??".toList = q at h ⊢
  cases hp : parseLine a with
  | none => rfl
  | some cf =>
    rw [hp] at h
    by_cases h1 : cf.1 = q ∨ 'A' ∈ cf.1
    · simp [h1]
    · simp [h1] at h

theorem addedPath_not_deleted (a b : Str) (h : addedPath a = some b) :
    deletedPath a = none := by
  unfold addedPath at h
  unfold deletedPath
  generalize "??".toList = q at h ⊢
  cases hp : parseLine a with
  | none => rfl
  | some cf =>
    rw [hp] at h
    by_cases h1 : cf.1 = q ∨ 'A' ∈ cf.1
    · simp [h1]
    · simp [h1] at h

theorem modifiedPath_not_deleted (a b : Str) (h : modifiedPath a = some b) :
    deletedPath a = none := by
  unfold modifiedPath at h
  unfold deletedPath
  generalize "??".toList = q at h ⊢
  cases hp : parseLine a with
  | none => rfl
  | some cf =>
    rw [hp] at h
    by_cases h2 : 'M' ∈ cf.1
    · simp [h2]
    · simp [h2] at h

/-- C3, counterexample. A rename line `R  old.md -> new.md` carries a path
and reaches no bucket, so the buckets do not cover the paths of the input; and
a path listed on two lines with different codes is in two buckets. -/
theorem classify_partition_counterexample :
    ¬ bucketsCoverPaths "R  old.md -> new.md".toList ∧
    ¬ bucketsDisjoint " M a.md\nA  b.md\nM  b.md".toList := by
  constructor
  · intro h
    have h1 := (h "old.md -> new.md".toList).1 (by decide)
    revert h1
    decide
  · intro h
    have hd := h.1
    exact hd (by decide : "b.md".toList ∈ (classify " M a.md\nA  b.md\nM  b.md".toList).added)
      (by decide)

/-- C3, amended. For any status-listing text the union of the three buckets
is the set of the paths of the lines whose code is `??` or contains `A`, `M`
or `D`; and when no path is listed on two such lines, no path is in more than
one bucket. -/
theorem classify_partition (changes : Str) :
    (∀ p, (p ∈ (classify changes).added ∨ p ∈ (classify changes).modified ∨
        p ∈ (classify changes).deleted) ↔ p ∈ recognisedPaths changes) ∧
    ((recognisedPaths changes).Nodup → bucketsDisjoint changes) := by
  have hA : ∀ a b, addedPath a = some b → recognisedPath a = some b :=
    fun a b h => (recognisedPath_iff a b).2 (Or.inl h)
  have hM : ∀ a b, modifiedPath a = some b → recognisedPath a = some b :=
    fun a b h => (recognisedPath_iff a b).2 (Or.inr (Or.inl h))
  have hD : ∀ a b, deletedPath a = some b → recognisedPath a = some b :=
    fun a b h => (recognisedPath_iff a b).2 (Or.inr (Or.inr h))
  unfold bucketsDisjoint recognisedPaths
  rw [classify_eq]
  refine ⟨fun p => ?_, fun hn => ⟨?_, ?_, ?_⟩⟩
  · simp only [List.mem_filterMap, recognisedPath_iff]
    constructor
    · rintro (⟨l, hl, h⟩ | ⟨l, hl, h⟩ | ⟨l, hl, h⟩)
      · exact ⟨l, hl, Or.inl h⟩
      · exact ⟨l, hl, Or.inr (Or.inl h)⟩
      · exact ⟨l, hl, Or.inr (Or.inr h)⟩
    · rintro ⟨l, hl, h | h | h⟩
      · exact Or.inl ⟨l, hl, h⟩
      · exact Or.inr (Or.inl ⟨l, hl, h⟩)
      · exact Or.inr (Or.inr ⟨l, hl, h⟩)
  · exact filterMap_disjoint _ _ _ _ hA hM addedPath_not_modified hn
  · exact filterMap_disjoint _ _ _ _ hA hD addedPath_not_deleted hn
  · exact filterMap_disjoint _ _ _ _ hM hD modifiedPath_not_deleted hn

/-- C3, amended, on a listing with an untracked, a modified, a deleted and a
renamed file. -/
theorem classify_partition_witness :
    (recognisedPaths "?? a.md\n M b.md\n D c.md\nR  d.md -> e.md\n".toList).Nodup ∧
    bucketsDisjoint "?? a.md\n M b.md\n D c.md\nR  d.md -> e.md\n".toList ∧
    classify "?? a.md\n M b.md\n D c.md\nR  d.md -> e.md\n".toList =
      ⟨["a.md".toList], ["b.md".toList], ["c.md".toList]⟩ :=
  ⟨by decide,
    (classify_partition "?? a.md\n M b.md\n D c.md\nR  d.md -> e.md\n".toList).2 (by decide),
    by decide⟩

/-! ## The commit message (C4) -/

theorem Join_eq_intercalate (xs : List Str) (sep : Str) : Join xs sep = sep.intercalate xs := by
  induction xs with
  | nil => simp [Join, List.intercalate]
  | cons a t ih =>
    cases t with
    | nil => simp [Join, List.intercalate]
    | cons b r =>
      rw [Join, ih]
      simp [List.intercalate]

/-- C4. The commit message of `handleSync` is the one the specification
describes: with a non-empty bucket the labelled parts of the non-empty buckets
in the order added, modified, deleted, joined with `; ` (the user message
plays no part); with three empty buckets the user message, or the placeholder
when it is empty.  The three examples of the specification hold. -/
theorem synthesize_eq_described (c : ChangeSet) (userMessage : Str) :
    synthesize c userMessage = describedMessage c userMessage ∧
    synthesize ⟨["a.md".toList], [], []⟩ [] = "Added: a.md".toList ∧
    synthesize ⟨[], [], []⟩ "hello".toList = "hello".toList ∧
    synthesize ⟨[], [], []⟩ [] = "Auto sync: No changes detected".toList ∧
    synthesize ⟨["a".toList], ["b".toList], []⟩ "ignored".toList =
      "Added: a; Updated: b".toList := by
  refine ⟨?_, by decide, by decide, by decide, by decide⟩
  obtain ⟨a, m, d⟩ := c
  unfold synthesize describedMessage msgParts
  simp only [Join_eq_intercalate]
  cases a <;> cases m <;> cases d <;> simp

/-! ## `handleSync` (C1, C2, C10, C8) -/

theorem runGitCommand_err {σ : Type} (env : Env σ) (r : Run σ) (args : List Str) :
    (runGitCommand env r args).1 =
      (env.git r.world args).1.err.map
        (fun e => e ++ ": ".toList ++ (env.git r.world args).1.combined) := by
  unfold runGitCommand
  generalize env.git r.world args = res
  obtain ⟨⟨err, so, co⟩, w'⟩ := res
  cases err <;> rfl

theorem runGitCommand_snd {σ : Type} (env : Env σ) (r : Run σ) (args : List Str) :
    (runGitCommand env r args).2 =
      ⟨(env.git r.world args).2, r.trace ++ [(args, (env.git r.world args).1)]⟩ := by
  unfold runGitCommand
  generalize env.git r.world args = res
  obtain ⟨⟨err, so, co⟩, w'⟩ := res
  cases err <;> rfl

/-- The request reaches the `git` commands: the response and the run of
`handleSync` in terms of the results `s, a, c, p, q` of its five commands. -/
theorem handleSync_run {σ : Type} (env : Env σ) (config : AppConfig) (req : SyncRequest) (w : σ)
    (hr : config.RepoURL ≠ []) (ht : config.Token ≠ []) :
    ∃ (s a c p q : CmdResult × σ) (msg : Str),
      s = env.git w ["status".toList, "--porcelain".toList] ∧
      a = env.git s.2 ["add".toList, ".".toList] ∧
      msg = synthesize (classify s.1.stdout) req.Message ∧
      c = env.git a.2 ["commit".toList, "-m".toList, msg] ∧
      p = env.git c.2 ["pull".toList, "--rebase".toList, "origin".toList, "main".toList] ∧
      q = env.git p.2 ["push".toList, "origin".toList, "main".toList] ∧
      (handleSync env "POST".toList config req w).2 =
        ⟨q.2, [(["status".toList, "--porcelain".toList], s.1),
          (["add".toList, ".".toList], a.1),
          (["commit".toList, "-m".toList, msg], c.1),
          (["pull".toList, "--rebase".toList, "origin".toList, "main".toList], p.1),
          (["push".toList, "origin".toList, "main".toList], q.1)]⟩ ∧
      (handleSync env "POST".toList config req w).1 =
        match q.1.err with
        | some e => ⟨500, .text (syncErrorText ++ (e ++ ": ".toList ++ q.1.combined))⟩
        | none => ⟨200, .json [("status".toList, "synced".toList)]⟩ := by
  refine ⟨_, _, _, _, _, _, rfl, rfl, rfl, rfl, rfl, rfl, ?_, ?_⟩
  · unfold handleSync
    simp only [hr, ht, ne_eq, not_true_eq_false, or_self, if_false]
    split <;> simp [runGitCommand_snd, gitStatus]
  · unfold handleSync
    simp only [hr, ht, ne_eq, not_true_eq_false, or_self, if_false]
    rw [runGitCommand_err]
    simp only [runGitCommand_snd, gitStatus, List.nil_append]
    cases (env.git _ ["push".toList, "origin".toList, "main".toList]).1.err <;> rfl

/-- C1. A `POST` sync request with non-empty `RepoURL` and `Token` ends with
the command `push origin main`, whatever the other commands did: when the push
succeeds the answer is 200 with `status: synced`, when it fails with error `e`
the answer is 500 with the text `Senkronizasyon hatası: e: output`, which
contains the error and the combined output of the push. -/
theorem handleSync_push_decides {σ : Type} (env : Env σ) (config : AppConfig)
    (req : SyncRequest) (w : σ) (hr : config.RepoURL ≠ []) (ht : config.Token ≠ []) :
    ∃ (pre : List (List Str × CmdResult)) (r : CmdResult),
      (handleSync env "POST".toList config req w).2.trace =
        pre ++ [(["push".toList, "origin".toList, "main".toList], r)] ∧
      (r.err = none → (handleSync env "POST".toList config req w).1 =
        ⟨200, .json [("status".toList, "synced".toList)]⟩) ∧
      (∀ e, r.err = some e → ∃ msg,
        (handleSync env "POST".toList config req w).1 = ⟨500, .text msg⟩ ∧
        msg = syncErrorText ++ (e ++ ": ".toList ++ r.combined) ∧
        e <:+: msg ∧ r.combined <:+: msg) := by
  obtain ⟨s, a, c, p, q, msg, -, -, -, -, -, -, htr, hresp⟩ :=
    handleSync_run env config req w hr ht
  refine ⟨[(["status".toList, "--porcelain".toList], s.1), (["add".toList, ".".toList], a.1),
      (["commit".toList, "-m".toList, msg], c.1),
      (["pull".toList, "--rebase".toList, "origin".toList, "main".toList], p.1)], q.1, ?_,
    fun h => ?_, fun e h => ?_⟩
  · rw [htr]; rfl
  · rw [hresp, h]
  · refine ⟨_, ?_, rfl, ?_, ?_⟩
    · rw [hresp, h]
    · exact ⟨syncErrorText, ": ".toList ++ q.1.combined, by simp only [List.append_assoc]⟩
    · exact ⟨syncErrorText ++ (e ++ ": ".toList), [],
        by simp only [List.append_assoc, List.append_nil]⟩

/-- C1 on two concrete runs: every command succeeds, and only the push
fails. -/
theorem handleSync_push_decides_witness :
    sampleConfig.RepoURL ≠ [] ∧ sampleConfig.Token ≠ [] ∧
    (handleSync (scripted (fun _ => false) " M a.md\n".toList) "POST".toList sampleConfig
      ⟨[]⟩ ()).1 = ⟨200, .json [("status".toList, "synced".toList)]⟩ ∧
    (handleSync (scripted (fun a => a = ["push".toList, "origin".toList, "main".toList])
      " M a.md\n".toList) "POST".toList sampleConfig ⟨[]⟩ ()).1 =
      ⟨500, .text (syncErrorText ++ "exit status 1: fatal".toList)⟩ ∧
    ∃ (pre : List (List Str × CmdResult)) (r : CmdResult),
      (handleSync (scripted (fun _ => false) " M a.md\n".toList) "POST".toList sampleConfig
        ⟨[]⟩ ()).2.trace = pre ++ [(["push".toList, "origin".toList, "main".toList], r)] ∧
      (r.err = none → (handleSync (scripted (fun _ => false) " M a.md\n".toList) "POST".toList
        sampleConfig ⟨[]⟩ ()).1 = ⟨200, .json [("status".toList, "synced".toList)]⟩) ∧
      (∀ e, r.err = some e → ∃ msg,
        (handleSync (scripted (fun _ => false) " M a.md\n".toList) "POST".toList
          sampleConfig ⟨[]⟩ ()).1 = ⟨500, .text msg⟩ ∧
        msg = syncErrorText ++ (e ++ ": ".toList ++ r.combined) ∧
        e <:+: msg ∧ r.combined <:+: msg) :=
  ⟨by decide, by decide, by decide, by decide,
    handleSync_push_decides (scripted (fun _ => false) " M a.md\n".toList) sampleConfig ⟨[]⟩ ()
      (by decide) (by decide)⟩

/-- C2. With `RepoURL` or `Token` empty, `handleSync` runs no `git` command
and leaves the world as it is, whatever the method; a `POST` is answered with
400 and the text of the missing configuration. -/
theorem handleSync_config_missing {σ : Type} (env : Env σ) (method : Str) (config : AppConfig)
    (req : SyncRequest) (w : σ) (h : config.RepoURL = [] ∨ config.Token = []) :
    (handleSync env method config req w).2.trace = [] ∧
    (handleSync env method config req w).2.world = w ∧
    (handleSync env "POST".toList config req w).1 = ⟨400, .text configMissingText⟩ := by
  unfold handleSync
  generalize "POST".toList = post
  refine ⟨?_, ?_, ?_⟩
  · by_cases hm : method = post <;> simp [hm, h]
  · by_cases hm : method = post <;> simp [hm, h]
  · simp [h]

/-- C2 on a configuration without token, in an environment in which every
command would fail. -/
theorem handleSync_config_missing_witness :
    (handleSync (scripted (fun _ => true) []) "POST".toList
      ⟨"https://github.com/u/r.git".toList, [], [], []⟩ ⟨"msg".toList⟩ ()).2.trace = [] ∧
    (handleSync (scripted (fun _ => true) []) "POST".toList
      ⟨"https://github.com/u/r.git".toList, [], [], []⟩ ⟨"msg".toList⟩ ()).2.world = () ∧
    (handleSync (scripted (fun _ => true) []) "POST".toList
      ⟨"https://github.com/u/r.git".toList, [], [], []⟩ ⟨"msg".toList⟩ ()).1 =
      ⟨400, .text configMissingText⟩ :=
  handleSync_config_missing (scripted (fun _ => true) []) "POST".toList
    ⟨"https://github.com/u/r.git".toList, [], [], []⟩ ⟨"msg".toList⟩ () (Or.inr rfl)

/-- C10. A `POST` sync request with non-empty `RepoURL` and `Token` runs
exactly `status --porcelain`, `add .`, `commit -m msg`, `pull --rebase origin
main` and `push origin main`, in this order, whatever each command answers;
`msg` is the message synthesized from the classified status output and the
message of the request. -/
theorem handleSync_commands {σ : Type} (env : Env σ) (config : AppConfig)
    (req : SyncRequest) (w : σ) (hr : config.RepoURL ≠ []) (ht : config.Token ≠ []) :
    (handleSync env "POST".toList config req w).2.trace.map Prod.fst =
      [["status".toList, "--porcelain".toList], ["add".toList, ".".toList],
        ["commit".toList, "-m".toList,
          synthesize (classify (env.git w ["status".toList, "--porcelain".toList]).1.stdout)
            req.Message],
        ["pull".toList, "--rebase".toList, "origin".toList, "main".toList],
        ["push".toList, "origin".toList, "main".toList]] := by
  obtain ⟨s, a, c, p, q, msg, hs, -, hmsg, -, -, -, htr, -⟩ :=
    handleSync_run env config req w hr ht
  rw [htr, hmsg, hs]
  rfl

/-- C10 on a run in which status, add, commit and pull all fail: the five
commands are still run, the commit message being the message of the request
since the failed status printed nothing. -/
theorem handleSync_commands_witness :
    sampleConfig.RepoURL ≠ [] ∧ sampleConfig.Token ≠ [] ∧
    (handleSync (scripted (fun a => a ≠ ["push".toList, "origin".toList, "main".toList]) [])
      "POST".toList sampleConfig ⟨"notes".toList⟩ ()).2.trace.map Prod.fst =
      [["status".toList, "--porcelain".toList], ["add".toList, ".".toList],
        ["commit".toList, "-m".toList, "notes".toList],
        ["pull".toList, "--rebase".toList, "origin".toList, "main".toList],
        ["push".toList, "origin".toList, "main".toList]] :=
  ⟨by decide, by decide,
    handleSync_commands (scripted (fun a => a ≠ ["push".toList, "origin".toList, "main".toList]) [])
      sampleConfig ⟨"notes".toList⟩ () (by decide) (by decide)⟩

/-- C8, counterexample. The staging command `add .` fails, the other commands
succeed: the failure is in the trace and the answer is 200 with
`status: synced`. -/
theorem handleSync_staging_failure_counterexample :
    sampleConfig.RepoURL ≠ [] ∧ sampleConfig.Token ≠ [] ∧
    (["add".toList, ".".toList],
        (⟨some "exit status 1".toList, [], "fatal".toList⟩ : CmdResult)) ∈
      (handleSync (scripted (fun a => a = ["add".toList, ".".toList]) " M a.md\n".toList)
        "POST".toList sampleConfig ⟨[]⟩ ()).2.trace ∧
    (handleSync (scripted (fun a => a = ["add".toList, ".".toList]) " M a.md\n".toList)
      "POST".toList sampleConfig ⟨[]⟩ ()).1 =
      ⟨200, .json [("status".toList, "synced".toList)]⟩ := by
  decide

/-- C8, amended. A failure of the staging command `add .` is absorbed: the
commands `commit`, `pull --rebase` and `push` are still run after it, and the
answer is 500 exactly when the push fails and 200 with `status: synced`
exactly when the push succeeds. -/
theorem handleSync_staging_failure_absorbed {σ : Type} (env : Env σ) (config : AppConfig)
    (req : SyncRequest) (w : σ) (hr : config.RepoURL ≠ []) (ht : config.Token ≠ [])
    (hadd : (env.git (env.git w ["status".toList, "--porcelain".toList]).2
      ["add".toList, ".".toList]).1.err ≠ none) :
    ∃ (s a c p q : CmdResult) (msg : Str),
      a.err ≠ none ∧
      (handleSync env "POST".toList config req w).2.trace =
        [(["status".toList, "--porcelain".toList], s), (["add".toList, ".".toList], a),
          (["commit".toList, "-m".toList, msg], c),
          (["pull".toList, "--rebase".toList, "origin".toList, "main".toList], p),
          (["push".toList, "origin".toList, "main".toList], q)] ∧
      ((handleSync env "POST".toList config req w).1.code = 500 ↔ q.err ≠ none) ∧
      ((handleSync env "POST".toList config req w).1 =
        ⟨200, .json [("status".toList, "synced".toList)]⟩ ↔ q.err = none) := by
  obtain ⟨s, a, c, p, q, msg, hs, ha, -, -, -, -, htr, hresp⟩ :=
    handleSync_run env config req w hr ht
  refine ⟨s.1, a.1, c.1, p.1, q.1, msg, ?_, ?_, ?_, ?_⟩
  · rw [ha, hs]; exact hadd
  · rw [htr]
  · rw [hresp]
    cases q.1.err <;> simp
  · rw [hresp]
    cases q.1.err <;> simp

/-- C8, amended, on the run in which only `add .` fails. -/
theorem handleSync_staging_failure_absorbed_witness :
    sampleConfig.RepoURL ≠ [] ∧ sampleConfig.Token ≠ [] ∧
    ∃ (s a c p q : CmdResult) (msg : Str),
      a.err ≠ none ∧
      (handleSync (scripted (fun a => a = ["add".toList, ".".toList]) " M a.md\n".toList)
        "POST".toList sampleConfig ⟨[]⟩ ()).2.trace =
        [(["status".toList, "--porcelain".toList], s), (["add".toList, ".".toList], a),
          (["commit".toList, "-m".toList, msg], c),
          (["pull".toList, "--rebase".toList, "origin".toList, "main".toList], p),
          (["push".toList, "origin".toList, "main".toList], q)] ∧
      ((handleSync (scripted (fun a => a = ["add".toList, ".".toList]) " M a.md\n".toList)
        "POST".toList sampleConfig ⟨[]⟩ ()).1.code = 500 ↔ q.err ≠ none) ∧
      ((handleSync (scripted (fun a => a = ["add".toList, ".".toList]) " M a.md\n".toList)
        "POST".toList sampleConfig ⟨[]⟩ ()).1 =
        ⟨200, .json [("status".toList, "synced".toList)]⟩ ↔ q.err = none) :=
  ⟨by decide, by decide,
    handleSync_staging_failure_absorbed
      (scripted (fun a => a = ["add".toList, ".".toList]) " M a.md\n".toList)
      sampleConfig ⟨[]⟩ () (by decide) (by decide) (by decide)⟩

/-! ## `handleConfig` (C9) -/

/-- C9. A `POST` configure request with a decodable body runs
`remote add origin <authenticated URL>` after at most `init`, `branch -M main`,
`config user.name`, `config user.email` and `remote remove origin`, and before
at most the initial pull.  Whatever the other commands answer, the answer is
500 exactly when `remote add` fails, then with the text
`Remote eklenemedi: e: output`, and 200 with `status: configured` when it
succeeds. -/
theorem handleConfig_remote_add_decides {σ : Type} (env : Env σ) (config newConfig : AppConfig)
    (w : σ) :
    ∃ (pre : List (List Str × CmdResult)) (r : CmdResult) (post : List (List Str × CmdResult)),
      (handleConfig env "POST".toList config (.ok newConfig) w).2.2.trace =
        pre ++ (["remote".toList, "add".toList, "origin".toList, getAuthRepoURL newConfig], r)
          :: post ∧
      (∀ x ∈ pre, x.1 ∈ [["init".toList], ["branch".toList, "-M".toList, "main".toList],
        ["config".toList, "user.name".toList, newConfig.Username],
        ["config".toList, "user.email".toList, newConfig.Email],
        ["remote".toList, "remove".toList, "origin".toList]]) ∧
      (∀ x ∈ post, x.1 = ["pull".toList, "origin".toList, "main".toList,
        "--allow-unrelated-histories".toList]) ∧
      (r.err = none → (handleConfig env "POST".toList config (.ok newConfig) w).1 =
        ⟨200, .json [("status".toList, "configured".toList)]⟩) ∧
      (∀ e, r.err = some e → (handleConfig env "POST".toList config (.ok newConfig) w).1 =
        ⟨500, .text ("Remote eklenemedi: ".toList ++ (e ++ ": ".toList ++ r.combined))⟩) ∧
      ((handleConfig env "POST".toList config (.ok newConfig) w).1.code = 500 ↔
        r.err ≠ none) := by
  have hm : ¬ "POST".toList = "GET".toList := by decide
  unfold handleConfig
  simp only [hm, if_false, if_true]
  generalize hr2 : (if env.gitDirMissing (env.saveConfig w newConfig) = true then
      (runGitCommand env (runGitCommand env ⟨env.saveConfig w newConfig, []⟩ ["init".toList]).2
        ["branch".toList, "-M".toList, "main".toList]).2
    else (⟨env.saveConfig w newConfig, []⟩ : Run σ)) = r2
  have h2 : ∀ x ∈ r2.trace,
      x.1 = ["init".toList] ∨ x.1 = ["branch".toList, "-M".toList, "main".toList] := by
    intro x hx
    rw [← hr2] at hx
    split at hx
    · simp only [runGitCommand_snd, List.nil_append, List.cons_append, List.mem_cons,
        List.mem_singleton, List.not_mem_nil, or_false] at hx
      rcases hx with rfl | rfl
      · exact Or.inl rfl
      · exact Or.inr rfl
    · simp at hx
  simp only [runGitCommand_err, runGitCommand_snd, List.append_assoc,
    List.singleton_append, List.cons_append, List.nil_append]
  generalize env.git r2.world ["config".toList, "user.name".toList, newConfig.Username] = rn
  generalize env.git rn.2 ["config".toList, "user.email".toList, newConfig.Email] = re
  generalize env.git re.2 ["remote".toList, "remove".toList, "origin".toList] = rr
  generalize env.git rr.2
    ["remote".toList, "add".toList, "origin".toList, getAuthRepoURL newConfig] = ra
  generalize env.git ra.2 ["pull".toList, "origin".toList, "main".toList,
    "--allow-unrelated-histories".toList] = rp
  obtain ⟨⟨err, so, co⟩, wa⟩ := ra
  refine ⟨r2.trace ++ [(["config".toList, "user.name".toList, newConfig.Username], rn.1),
      (["config".toList, "user.email".toList, newConfig.Email], re.1),
      (["remote".toList, "remove".toList, "origin".toList], rr.1)], ⟨err, so, co⟩,
    match err with
    | some _ => []
    | none => [(["pull".toList, "origin".toList, "main".toList,
        "--allow-unrelated-histories".toList], rp.1)], ?_, ?_, ?_, ?_, ?_, ?_⟩
  · cases err <;> simp
  · intro x hx
    rcases List.mem_append.1 hx with hx | hx
    · rcases h2 x hx with h | h <;> simp [h]
    · simp only [List.mem_cons, List.mem_singleton, List.not_mem_nil, or_false] at hx
      rcases hx with rfl | rfl | rfl <;> simp
  · intro x hx
    cases err with
    | none => simp only [List.mem_singleton] at hx; rw [hx]
    | some e => simp at hx
  · intro h
    simp only at h
    subst h
    rfl
  · intro e h
    simp only at h
    subst h
    rfl
  · cases err <;> simp

/-- C9 on two concrete runs: every command but `remote add` fails, and only
`remote add` fails. -/
theorem handleConfig_remote_add_decides_witness :
    (handleConfig (scripted (fun a => a.take 2 ≠ ["remote".toList, "add".toList]) [])
      "POST".toList ⟨[], [], [], []⟩ (.ok sampleConfig) ()).1 =
      ⟨200, .json [("status".toList, "configured".toList)]⟩ ∧
    (handleConfig (scripted (fun a => a.take 2 = ["remote".toList, "add".toList]) [])
      "POST".toList ⟨[], [], [], []⟩ (.ok sampleConfig) ()).1 =
      ⟨500, .text "Remote eklenemedi: exit status 1: fatal".toList⟩ ∧
    ∃ (pre : List (List Str × CmdResult)) (r : CmdResult) (post : List (List Str × CmdResult)),
      (handleConfig (scripted (fun a => a.take 2 ≠ ["remote".toList, "add".toList]) [])
        "POST".toList ⟨[], [], [], []⟩ (.ok sampleConfig) ()).2.2.trace =
        pre ++ (["remote".toList, "add".toList, "origin".toList, getAuthRepoURL sampleConfig], r)
          :: post ∧
      (∀ x ∈ pre, x.1 ∈ [["init".toList], ["branch".toList, "-M".toList, "main".toList],
        ["config".toList, "user.name".toList, sampleConfig.Username],
        ["config".toList, "user.email".toList, sampleConfig.Email],
        ["remote".toList, "remove".toList, "origin".toList]]) ∧
      (∀ x ∈ post, x.1 = ["pull".toList, "origin".toList, "main".toList,
        "--allow-unrelated-histories".toList]) ∧
      (r.err = none →
        (handleConfig (scripted (fun a => a.take 2 ≠ ["remote".toList, "add".toList]) [])
          "POST".toList ⟨[], [], [], []⟩ (.ok sampleConfig) ()).1 =
        ⟨200, .json [("status".toList, "configured".toList)]⟩) ∧
      (∀ e, r.err = some e →
        (handleConfig (scripted (fun a => a.take 2 ≠ ["remote".toList, "add".toList]) [])
          "POST".toList ⟨[], [], [], []⟩ (.ok sampleConfig) ()).1 =
        ⟨500, .text ("Remote eklenemedi: ".toList ++ (e ++ ": ".toList ++ r.combined))⟩) ∧
      ((handleConfig (scripted (fun a => a.take 2 ≠ ["remote".toList, "add".toList]) [])
        "POST".toList ⟨[], [], [], []⟩ (.ok sampleConfig) ()).1.code = 500 ↔ r.err ≠ none) :=
  ⟨by decide, by decide,
    handleConfig_remote_add_decides
      (scripted (fun a => a.take 2 ≠ ["remote".toList, "add".toList]) [])
      ⟨[], [], [], []⟩ sampleConfig ()⟩

end LambdaNotes
